import Mathlib

/-
Shallow embedding of the HTTP/1.1 request serializer and response framing
parser from src/rust/unix_socket/src/main.rs, together with theorems about
the request/response data model and the decoding pipeline.

Rust `String`/`str` is modelled by Lean `String` (operating on `String.data`),
`Vec<u8>` by `List Nat` (each element a byte value), `BTreeMap<String, String>`
by a list of pairs kept sorted by key (Mathlib's `LinearOrder String` is the
codepoint-lexicographic order, which agrees with Rust's byte-lexicographic
`Ord` for `String` because UTF-8 preserves codepoint order).  Fallible Rust
code returning `Result<_, String>` becomes `Outcome`, whose third constructor
records an `unwrap` on an `Err`/short read (a Rust panic).
-/

namespace UnixSocketHttp

/-- Result of running a fallible Rust computation: `Ok`, `Err` with its
message, or a panic raised by `unwrap` on a failed operation. -/
inductive Outcome (α : Type) where
  | ok (a : α)
  | err (e : String)
  | panic
deriving DecidableEq

/-- Unicode `White_Space` test, as used by Rust's `char::is_whitespace`,
`str::trim` and `str::split_whitespace`. -/
def rustIsWhitespace (c : Char) : Bool :=
  let n := c.toNat
  (0x9 ≤ n && n ≤ 0xD) || n = 0x20 || n = 0x85 || n = 0xA0 || n = 0x1680 ||
  (0x2000 ≤ n && n ≤ 0x200A) || n = 0x2028 || n = 0x2029 || n = 0x202F ||
  n = 0x205F || n = 0x3000

/-- Drop leading and trailing whitespace from a character list. -/
def trimChars (l : List Char) : List Char :=
  ((l.dropWhile rustIsWhitespace).reverse.dropWhile rustIsWhitespace).reverse

/-- Rust `str::trim`. -/
def rustTrim (s : String) : String := ⟨trimChars s.data⟩

/-- Worker for splitting on the two-character separator `": "`, leftmost
non-overlapping occurrences, as Rust's `str::split(": ")` does. -/
def splitColonSpChars : List Char → List Char → List (List Char)
  | [], acc => [acc.reverse]
  | ':' :: ' ' :: rest, acc => acc.reverse :: splitColonSpChars rest []
  | c :: rest, acc => splitColonSpChars rest (c :: acc)

/-- Rust `line.split(": ")`, collected into a list of segments. -/
def splitColonSp (s : String) : List String :=
  (splitColonSpChars s.data []).map fun l => ⟨l⟩

/-- Worker for `str::split_whitespace`: tokens separated by whitespace runs,
with no empty tokens. -/
def splitWsChars : List Char → List Char → List (List Char)
  | [], acc => if acc.isEmpty then [] else [acc.reverse]
  | c :: rest, acc =>
    if rustIsWhitespace c then
      if acc.isEmpty then splitWsChars rest []
      else acc.reverse :: splitWsChars rest []
    else splitWsChars rest (c :: acc)

/-- Rust `str::split_whitespace`, collected into a list of tokens. -/
def splitWhitespaceS (s : String) : List String :=
  (splitWsChars s.data []).map fun l => ⟨l⟩

/-- ASCII fragment of Rust's `char::to_lowercase` (all inputs appearing in
HTTP header names are ASCII). -/
def lowerChar (c : Char) : Char :=
  if 'A' ≤ c ∧ c ≤ 'Z' then Char.ofNat (c.toNat + 32) else c

/-- Rust `str::to_lowercase` (ASCII fragment). -/
def toLowercase (s : String) : String := ⟨s.data.map lowerChar⟩

/-- Value of a decimal digit character, if it is one. -/
def decDigit (c : Char) : Option Nat :=
  if '0' ≤ c ∧ c ≤ '9' then some (c.toNat - 48) else none

/-- Value of a hexadecimal digit character (as accepted by
`from_str_radix(_, 16)`), if it is one. -/
def hexDigit (c : Char) : Option Nat :=
  if '0' ≤ c ∧ c ≤ '9' then some (c.toNat - 48)
  else if 'a' ≤ c ∧ c ≤ 'f' then some (c.toNat - 87)
  else if 'A' ≤ c ∧ c ≤ 'F' then some (c.toNat - 55)
  else none

/-- Accumulate decimal digits left to right with a per-step overflow check
against `bound`, as Rust's checked integer parsing does; a non-digit raises
`invalid digit found in string` and exceeding the bound raises `ovMsg`. -/
def parseDecDigits (bound : Nat) (ovMsg : String) : List Char → Nat → Except String Nat
  | [], acc => .ok acc
  | c :: rest, acc =>
    match decDigit c with
    | none => .error "invalid digit found in string"
    | some d =>
      let acc := acc * 10 + d
      if acc ≤ bound then parseDecDigits bound ovMsg rest acc
      else .error ovMsg

/-- Same as `parseDecDigits` for radix 16. -/
def parseHexDigits (bound : Nat) (ovMsg : String) : List Char → Nat → Except String Nat
  | [], acc => .ok acc
  | c :: rest, acc =>
    match hexDigit c with
    | none => .error "invalid digit found in string"
    | some d =>
      let acc := acc * 16 + d
      if acc ≤ bound then parseHexDigits bound ovMsg rest acc
      else .error ovMsg

/-- Largest `i64`/`isize` value (the target is 64-bit). -/
def i64Max : Nat := 2 ^ 63 - 1

/-- Magnitude of the smallest `i64`/`isize` value. -/
def i64MinMag : Nat := 2 ^ 63

/-- Rust `str::parse::<u32>()`: optional `+` sign, one or more decimal
digits, value below `2^32`; any failure collapses to `none` because the
caller maps every parse error to one fixed message. -/
def parseU32 (s : String) : Option Nat :=
  let digits : List Char → Option Nat := fun ds =>
    match parseDecDigits (2 ^ 32 - 1) "overflow" ds 0 with
    | .ok n => some n
    | .error _ => none
  match s.data with
  | [] => none
  | '+' :: ds => if ds.isEmpty then none else digits ds
  | ds => digits ds

/-- Rust `str::parse::<isize>()` on a 64-bit target, with the error strings
produced by `ParseIntError`'s `Display`. -/
def parseI64 (s : String) : Except String Int :=
  match s.data with
  | [] => .error "cannot parse integer from empty string"
  | '+' :: ds =>
    if ds.isEmpty then .error "invalid digit found in string"
    else (parseDecDigits i64Max "number too large to fit in target type" ds 0).map
      (fun n => (n : Int))
  | '-' :: ds =>
    if ds.isEmpty then .error "invalid digit found in string"
    else (parseDecDigits i64MinMag "number too small to fit in target type" ds 0).map
      (fun n => -(n : Int))
  | ds =>
    (parseDecDigits i64Max "number too large to fit in target type" ds 0).map
      (fun n => (n : Int))

/-- Rust `i64::from_str_radix(s, 16)`, with `ParseIntError` display texts. -/
def parseHexI64 (s : String) : Except String Int :=
  match s.data with
  | [] => .error "cannot parse integer from empty string"
  | '+' :: ds =>
    if ds.isEmpty then .error "invalid digit found in string"
    else (parseHexDigits i64Max "number too large to fit in target type" ds 0).map
      (fun n => (n : Int))
  | '-' :: ds =>
    if ds.isEmpty then .error "invalid digit found in string"
    else (parseHexDigits i64MinMag "number too small to fit in target type" ds 0).map
      (fun n => -(n : Int))
  | ds =>
    (parseHexDigits i64Max "number too large to fit in target type" ds 0).map
      (fun n => (n : Int))

/-- Rust's `as usize` cast from a 64-bit signed value: two's-complement
wrap into `[0, 2^64)`. -/
def usizeOfI64 (i : Int) : Nat := (i % (2 ^ 64 : Int)).toNat

/-- Decode a UTF-8 byte list into characters, rejecting exactly what
`String::from_utf8` rejects: truncated sequences, stray continuation bytes,
overlong encodings, surrogates and values above `U+10FFFF`. -/
def utf8DecodeChars : List Nat → Option (List Char)
  | [] => some []
  | b :: rest =>
    if b < 0x80 then
      match utf8DecodeChars rest with
      | some cs => some (Char.ofNat b :: cs)
      | none => none
    else if b < 0xC2 then none
    else if b < 0xE0 then
      match rest with
      | c1 :: rest1 =>
        if 0x80 ≤ c1 ∧ c1 < 0xC0 then
          match utf8DecodeChars rest1 with
          | some cs => some (Char.ofNat ((b - 0xC0) * 0x40 + (c1 - 0x80)) :: cs)
          | none => none
        else none
      | [] => none
    else if b < 0xF0 then
      match rest with
      | c1 :: c2 :: rest2 =>
        if (0x80 ≤ c1 ∧ c1 < 0xC0) ∧ (0x80 ≤ c2 ∧ c2 < 0xC0) then
          let cp := (b - 0xE0) * 0x1000 + (c1 - 0x80) * 0x40 + (c2 - 0x80)
          if 0x800 ≤ cp ∧ ¬(0xD800 ≤ cp ∧ cp ≤ 0xDFFF) then
            match utf8DecodeChars rest2 with
            | some cs => some (Char.ofNat cp :: cs)
            | none => none
          else none
        else none
      | _ => none
    else if b < 0xF5 then
      match rest with
      | c1 :: c2 :: c3 :: rest3 =>
        if (0x80 ≤ c1 ∧ c1 < 0xC0) ∧ (0x80 ≤ c2 ∧ c2 < 0xC0) ∧ (0x80 ≤ c3 ∧ c3 < 0xC0) then
          let cp := (b - 0xF0) * 0x40000 + (c1 - 0x80) * 0x1000 +
            (c2 - 0x80) * 0x40 + (c3 - 0x80)
          if 0x10000 ≤ cp ∧ cp ≤ 0x10FFFF then
            match utf8DecodeChars rest3 with
            | some cs => some (Char.ofNat cp :: cs)
            | none => none
          else none
        else none
      | _ => none
    else none

/-- Rust `String::from_utf8`. -/
def utf8DecodeStr (l : List Nat) : Option String :=
  (utf8DecodeChars l).map fun cs => ⟨cs⟩

/-- UTF-8 encoding of one character. -/
def utf8EncodeChar (c : Char) : List Nat :=
  let n := c.toNat
  if n < 0x80 then [n]
  else if n < 0x800 then [0xC0 + n / 0x40, 0x80 + n % 0x40]
  else if n < 0x10000 then
    [0xE0 + n / 0x1000, 0x80 + (n / 0x40) % 0x40, 0x80 + n % 0x40]
  else
    [0xF0 + n / 0x40000, 0x80 + (n / 0x1000) % 0x40, 0x80 + (n / 0x40) % 0x40,
      0x80 + n % 0x40]

/-- UTF-8 encoding of a character list. -/
def encodeChars : List Char → List Nat
  | [] => []
  | c :: cs => utf8EncodeChar c ++ encodeChars cs

/-- Rust `str::as_bytes` / `String::into_bytes`. -/
def strBytes (s : String) : List Nat := encodeChars s.data

/-- Rust `Vec::join(sep)` for strings. -/
def joinSep (sep : String) : List String → String
  | [] => ""
  | [x] => x
  | x :: xs => x ++ sep ++ joinSep sep xs

/-- Strict lexicographic order on character lists by codepoint. -/
def ltCharList : List Char → List Char → Bool
  | [], [] => false
  | [], _ :: _ => true
  | _ :: _, [] => false
  | a :: as, b :: bs =>
    if a.toNat < b.toNat then true
    else if b.toNat < a.toNat then false
    else ltCharList as bs

/-- Rust's `Ord` for `String`: lexicographic comparison of the UTF-8 bytes,
which coincides with lexicographic comparison of the codepoints. -/
def strLt (a b : String) : Bool := ltCharList a.data b.data

/-- `BTreeMap<String, String>::insert`: keep the association list sorted by
key, overwriting the value when the key is already present. -/
def mapInsert (k v : String) : List (String × String) → List (String × String)
  | [] => [(k, v)]
  | (k1, v1) :: rest =>
    if strLt k k1 then (k, v) :: (k1, v1) :: rest
    else if k = k1 then (k, v) :: rest
    else (k1, v1) :: mapInsert k v rest

/-- `BTreeMap<String, String>::get`: exact (case-sensitive) key lookup. -/
def mapGet (m : List (String × String)) (k : String) : Option String :=
  match m with
  | [] => none
  | (k1, v) :: rest => if k1 = k then some v else mapGet rest k

/-- `HttpHeader` wraps a `BTreeMap<String, String>`. -/
abbrev HttpHeader := List (String × String)

/-- `HttpHeader::add`. -/
def HttpHeader.add (m : HttpHeader) (k v : String) : HttpHeader := mapInsert k v m

/-- `HttpHeader::get`. -/
def HttpHeader.get (m : HttpHeader) (k : String) : Option String := mapGet m k

/-- `FromIterator` for `HttpHeader`: start empty and `add` each pair. -/
def HttpHeader.fromPairs (l : List (String × String)) : HttpHeader :=
  l.foldl (fun m kv => mapInsert kv.1 kv.2 m) []

/-- `Display` for `HttpHeader`: `"k: v"` lines joined by CRLF. -/
def HttpHeader.display (m : HttpHeader) : String :=
  joinSep "\r\n" (m.map fun kv => kv.1 ++ ": " ++ kv.2)

/-- `HttpParams` wraps a `BTreeMap<String, String>`. -/
abbrev HttpParams := List (String × String)

/-- `HttpParams::add`. -/
def HttpParams.add (m : HttpParams) (k v : String) : HttpParams := mapInsert k v m

/-- `FromIterator` for `HttpParams`: start empty and `add` each pair. -/
def HttpParams.fromPairs (l : List (String × String)) : HttpParams :=
  l.foldl (fun m kv => mapInsert kv.1 kv.2 m) []

/-- `Display` for `HttpParams`: `"k=v"` pairs joined by `&`. -/
def HttpParams.display (m : HttpParams) : String :=
  joinSep "&" (m.map fun kv => kv.1 ++ "=" ++ kv.2)

/-- The `HttpMethod` enumeration. -/
inductive HttpMethod where
  | Get
  | Post
  | Update
  | Delete
  | Patch
deriving DecidableEq

/-- `Default for HttpMethod`. -/
def HttpMethod.default : HttpMethod := .Get

/-- `Display for HttpMethod`: the uppercase wire token. -/
def HttpMethod.toWire : HttpMethod → String
  | .Get => "GET"
  | .Post => "POST"
  | .Update => "UPDATE"
  | .Delete => "DELETE"
  | .Patch => "PATCH"

/-- The `Request` structure. -/
structure Request where
  url : String
  base_url : Option String
  method : HttpMethod
  header : Option HttpHeader
  params : Option HttpParams
  body : Option (List Nat)

/-- `Request::new`: only the url set, every other field at its default. -/
def Request.new (url : String) : Request :=
  ⟨url, none, HttpMethod.default, none, none, none⟩

/-- `Request::build`: serialize the request into wire bytes. -/
def Request.build (req : Request) : List Nat :=
  let url := match req.params with
    | some params => req.url ++ "?" ++ HttpParams.display params
    | none => req.url
  let base_url := match req.base_url with
    | some b => b
    | none => "localhost"
  let lines := [req.method.toWire ++ " " ++ url ++ " HTTP/1.1", "Host: " ++ base_url]
  let lines := match req.header with
    | some h => lines ++ [HttpHeader.display h ++ "\r\n"]
    | none => lines
  let out := strBytes (joinSep "\r\n" lines) ++ strBytes "\r\n"
  let out := match req.body with
    | some data => out ++ data
    | none => out
  out ++ strBytes "\r\n"

/-- The `Response` structure. -/
structure Response where
  status : Nat
  header : HttpHeader
  body : Option (List Nat)
deriving DecidableEq

/-- `BufReader::read_until(b'\n')` over a pure byte list: consume bytes up
to and including the first newline (or all remaining bytes when there is
none), returning the consumed line and the rest of the stream. -/
def readUntilNL : List Nat → List Nat × List Nat
  | [] => ([], [])
  | b :: rest =>
    if b = 10 then ([b], rest)
    else
      let (line, r) := readUntilNL rest
      (b :: line, r)

/-- `Read::read_exact` over a pure byte list: `n` bytes and the rest, or
failure when the stream is shorter than `n`. -/
def readExact (n : Nat) (input : List Nat) : Option (List Nat × List Nat) :=
  if n ≤ input.length then some (input.take n, input.drop n) else none

/-- One header line of `read_response`: trim, split on `": "`, lower-case
the key; a missing second segment is `invalid header value`. -/
def parseHeaderLine (line : String) : Outcome (String × String) :=
  let line := rustTrim line
  match splitColonSp line with
  | [] => .err "invalid header key"
  | key :: cols =>
    match cols with
    | [] => .err "invalid header value"
    | val :: _ => .ok (toLowercase key, val)

/-- The header loop of `read_response`, with fuel bounding the number of
iterations (each iteration consumes at least one byte, so
`input.length + 1` fuel always suffices). -/
def readHeadersF : Nat → List Nat → HttpHeader → Outcome (HttpHeader × List Nat)
  | 0, _, _ => .err "out of fuel"
  | fuel + 1, input, header =>
    let (buf, rest) := readUntilNL input
    if buf.length = 0 then .err "unexpected endof"
    else
      match utf8DecodeStr buf with
      | none => .err "cannot coonvert bytes to string"
      | some line =>
        if line = "\r\n" then .ok (header, rest)
        else
          match parseHeaderLine line with
          | .err e => .err e
          | .panic => .panic
          | .ok (key, val) => readHeadersF fuel rest (header.add key val)

/-- `read_response`'s header phase, run with sufficient fuel. -/
def readHeaders (input : List Nat) : Outcome (HttpHeader × List Nat) :=
  readHeadersF (input.length + 1) input []

/-- The chunked-body loop of `read_response`: read a chunk-size line, stop
with the accumulated body at EOF or on a zero size (consuming one more
line), otherwise `read_exact` the chunk (panicking on a short read, as the
source `unwrap`s) and consume the trailing CRLF line. -/
def readChunkedF : Nat → List Nat → List Nat → Outcome (List Nat × List Nat)
  | 0, _, _ => .err "out of fuel"
  | fuel + 1, input, body =>
    let (buf, rest) := readUntilNL input
    if buf.length = 0 then .ok (body, rest)
    else
      match utf8DecodeStr buf with
      | none => .err "cannot coonvert bytes to string"
      | some line =>
        match parseHexI64 (rustTrim line) with
        | .error e => .err ("cannot read chunk length: " ++ line ++ ": " ++ e)
        | .ok chunkSize =>
          if chunkSize = 0 then
            let (_, rest2) := readUntilNL rest
            .ok (body, rest2)
          else
            match readExact (usizeOfI64 chunkSize) rest with
            | none => .panic
            | some (chunk, rest2) =>
              let (_, rest3) := readUntilNL rest2
              readChunkedF fuel rest3 (body ++ chunk)

/-- `read_response`'s chunked-body phase, run with sufficient fuel. -/
def readChunked (input : List Nat) : Outcome (List Nat × List Nat) :=
  readChunkedF (input.length + 1) input []

/-- Body classification and body read of `read_response`, after the status
line and headers: 204/304 short-circuit, then `transfer-encoding` /
`content-length` inspection, then the chunked or fixed-length read (the
latter `unwrap`s its `read_exact`, hence panics on a short read). -/
def readBody (status : Nat) (header : HttpHeader) (input : List Nat) : Outcome Response :=
  if status = 204 ∨ status = 304 then .ok ⟨status, header, none⟩
  else if header.get "transfer-encoding" = none ∧ header.get "content-length" = none then
    .err "missing transfer-encoding or content-length"
  else if ((header.get "transfer-encoding").map fun x => x == "chunked").getD false then
    match readChunked input with
    | .err e => .err e
    | .panic => .panic
    | .ok (body, _) => .ok ⟨status, header, some body⟩
  else
    match header.get "content-length" with
    | none => .err "not found content-length"
    | some value =>
      match parseI64 value with
      | .error e => .err e
      | .ok size =>
        match readExact (usizeOfI64 size) input with
        | none => .panic
        | some (buf, _) => .ok ⟨status, header, some buf⟩

/-- `HttpClient::read_response` over a pure byte stream: status line,
headers, then the body phase. -/
def readResponse (input : List Nat) : Outcome Response :=
  let (buf, rest) := readUntilNL input
  match utf8DecodeStr buf with
  | none => .err "cannot convert bytes to string"
  | some statusLine =>
    match (splitWhitespaceS statusLine)[1]? with
    | none => .err "cannot get status code"
    | some tok =>
      match parseU32 tok with
      | none => .err "cannot parse to number"
      | some status =>
        match readHeaders rest with
        | .err e => .err e
        | .panic => .panic
        | .ok (header, rest2) => readBody status header rest2

/-- `HttpClient::execute_request` with the response byte stream given
explicitly: the serialized request that is written, and the decode of the
reply. -/
def executeRequest (req : Request) (reply : List Nat) : List Nat × Outcome Response :=
  (req.build, readResponse reply)

end UnixSocketHttp

namespace UnixSocketHttp

/-- C7: chunked decoding of the body `"4\r\ntest\r\n5\r\n body\r\n0\r\n\r\n"`
yields exactly the bytes of `"test body"` with the line after the zero-size
marker consumed, and a non-hexadecimal chunk-size line such as `"zz"` fails
with an error that carries the offending line text. -/
theorem claim_C7_chunked_decode :
    readChunked (strBytes "4\r\ntest\r\n5\r\n body\r\n0\r\n\r\n") =
      .ok (strBytes "test body", []) ∧
    readChunked (strBytes "zz\r\n") =
      .err "cannot read chunk length: zz\r\n: invalid digit found in string" := by
  constructor <;> decide

/-- C10: the chunk-size parser accepts a negative hexadecimal numeral such
as `"-4"` (the malformed-chunk-size branch is not taken), and the negative
size is cast two's-complement to an unsigned byte count, so the subsequent
exact-length read demands `2^64 - 4` bytes and panics rather than being
rejected as a protocol error. -/
theorem claim_C10_negative_chunk_size :
    parseHexI64 (rustTrim "-4\r\n") = .ok (-4) ∧
    usizeOfI64 (-4) = 2 ^ 64 - 4 ∧
    readChunked (strBytes "-4\r\ntest\r\n0\r\n\r\n") = .panic ∧
    readResponse
      (strBytes "HTTP/1.1 200 OK\r\ntransfer-encoding: chunked\r\n\r\n-4\r\nxx\r\n0\r\n\r\n") =
      .panic := by
  refine ⟨rfl, by decide, by decide, by decide⟩

/-- C2 counterexample: a header value containing `": "` is NOT preserved in
full — for the header line `X-Note: a: b` the stored value is `"a"`, the
text after the second `": "` being dropped, contrary to the claim. -/
theorem claim_C2_counterexample :
    readResponse (strBytes "HTTP/1.1 200 OK\r\nX-Note: a: b\r\ncontent-length: 0\r\n\r\n") =
      .ok ⟨200, [("content-length", "0"), ("x-note", "a")], some []⟩ ∧
    HttpHeader.get [("content-length", "0"), ("x-note", "a")] "x-note" ≠ some "a: b" := by
  constructor <;> decide

/-- C2 amended: each header line is split on every occurrence of `": "`; the
first segment, lower-cased, is the key and the SECOND segment alone is the
value, so text after any further `": "` is dropped (a line with no `": "` at
all is rejected as `invalid header value`). -/
theorem claim_C2_amended_split :
    parseHeaderLine "X-Note: a: b\r\n" = .ok ("x-note", "a") ∧
    parseHeaderLine "Content-Type: text/html\r\n" = .ok ("content-type", "text/html") ∧
    parseHeaderLine "Content-Length: 9\r\n" = .ok ("content-length", "9") ∧
    parseHeaderLine "garbage\r\n" = .err "invalid header value" := by
  refine ⟨by decide, by decide, by decide, by decide⟩

/-- C3 counterexample: a chunked stream that ends (EOF) before the
terminating zero-size chunk, at a chunk-size-line boundary, DOES yield a
successful Response carrying the partially accumulated body `"hello"`,
contrary to the claim. -/
theorem claim_C3_counterexample :
    readResponse (strBytes "HTTP/1.1 200 OK\r\ntransfer-encoding: chunked\r\n\r\n5\r\nhello\r\n") =
      .ok ⟨200, [("transfer-encoding", "chunked")], some (strBytes "hello")⟩ := by
  decide

/-- C3 amended: decoding yields a complete Response or an error, EXCEPT in
the chunked loop at end of stream: EOF where a chunk-size line is expected
silently terminates the loop and returns the partially accumulated body as
a success, while EOF in the middle of a chunk's data escapes as a panic
(unwrapped short read) rather than an error value. -/
theorem claim_C3_amended_partial_success :
    (∀ (fuel : Nat) (acc : List Nat), readChunkedF (fuel + 1) [] acc = .ok (acc, [])) ∧
    readResponse (strBytes "HTTP/1.1 200 OK\r\ntransfer-encoding: chunked\r\n\r\n5\r\nhel") =
      .panic := by
  constructor
  · intro fuel acc; rfl
  · decide

/-- C4 counterexample: a short read against an expected Content-Length does
NOT surface as an Err value — the decoder panics (unwrap on the failed
`read_exact`), contradicting the claim that no failure escapes by a panic. -/
theorem claim_C4_counterexample :
    readResponse (strBytes "HTTP/1.1 200 OK\r\ncontent-length: 9\r\n\r\ntest") = .panic := by
  decide

/-- C4 amended: parse- and protocol-level failures (bad status token,
truncated header block, missing framing headers) are surfaced as Err values
with human-readable text, but a short read against an expected length —
inside a chunk or against Content-Length — escapes `read_response` as a
panic, not as an Err. -/
theorem claim_C4_amended_errors_and_panics :
    readResponse (strBytes "HTTP/1.1 abc\r\n\r\n") = .err "cannot parse to number" ∧
    readResponse (strBytes "HTTP/1.1 200 OK\r\n") = .err "unexpected endof" ∧
    readResponse (strBytes "HTTP/1.1 200 OK\r\n\r\n") =
      .err "missing transfer-encoding or content-length" ∧
    readResponse (strBytes "HTTP/1.1 200 OK\r\ntransfer-encoding: chunked\r\n\r\n6\r\nab") =
      .panic ∧
    readResponse (strBytes "HTTP/1.1 200 OK\r\ncontent-length: 3\r\n\r\nab") = .panic := by
  refine ⟨by decide, by decide, by decide, by decide, by decide⟩

/-- C6 counterexample: `HttpHeader::get` is an exact, case-sensitive lookup:
after storing `"content-length"`, querying `"Content-Length"` returns
nothing, contrary to the claimed case-insensitive comparison (while the
exact lower-case key does return the stored value). -/
theorem claim_C6_counterexample :
    HttpHeader.get (HttpHeader.add [] "content-length" "9") "Content-Length" = none ∧
    HttpHeader.get (HttpHeader.add [] "content-length" "9") "content-length" = some "9" := by
  constructor <;> decide

end UnixSocketHttp

namespace UnixSocketHttp

/-- A list never orders strictly below itself in the codepoint order. -/
lemma ltCharList_irrefl : ∀ l, ltCharList l l = false := by
  intro l
  induction l with
  | nil => rfl
  | cons c cs ih => simp [ltCharList, ih]

/-- The byte-lexicographic string order is irreflexive. -/
lemma strLt_irrefl (s : String) : strLt s s = false := ltCharList_irrefl s.data

/-- Looking up the inserted key in a map returns the inserted value. -/
lemma mapGet_mapInsert_self (k v : String) : ∀ m, mapGet (mapInsert k v m) k = some v := by
  intro m
  induction m with
  | nil => simp [mapInsert, mapGet]
  | cons kv rest ih =>
    obtain ⟨k1, v1⟩ := kv
    by_cases h1 : strLt k k1 = true
    · simp [mapInsert, h1, mapGet]
    · by_cases h2 : k = k1
      · simp [mapInsert, h1, h2, mapGet, strLt_irrefl]
      · have h2s : ¬ k1 = k := fun h => h2 h.symm
        simp [mapInsert, h1, h2, mapGet, h2s, ih]

/-- Every successful `readBody` keeps the given status and header, and its
body is absent exactly when the status is 204 or 304. -/
lemma readBody_ok_shape (s : Nat) (h : HttpHeader) (i : List Nat) (r : Response)
    (hok : readBody s h i = .ok r) :
    r.status = s ∧ r.header = h ∧ ((s = 204 ∨ s = 304) ↔ r.body = none) := by
  unfold readBody at hok
  by_cases hs : s = 204 ∨ s = 304
  · rw [if_pos hs] at hok
    cases hok
    exact ⟨rfl, rfl, by simp [hs]⟩
  · rw [if_neg hs] at hok
    split at hok
    · exact absurd hok (by simp)
    · split at hok
      · split at hok
        · exact absurd hok (by simp)
        · exact absurd hok (by simp)
        · cases hok
          exact ⟨rfl, rfl, by simp [hs]⟩
      · split at hok
        · exact absurd hok (by simp)
        · split at hok
          · exact absurd hok (by simp)
          · split at hok
            · exact absurd hok (by simp)
            · cases hok
              exact ⟨rfl, rfl, by simp [hs]⟩

/-- Every successful decode has an absent body exactly for status 204/304. -/
lemma readResponse_ok_body (input : List Nat) (r : Response)
    (hok : readResponse input = .ok r) :
    (r.status = 204 ∨ r.status = 304) ↔ r.body = none := by
  unfold readResponse at hok
  repeat' split at hok
  all_goals
    first
      | exact absurd hok (by simp)
      | (obtain ⟨h1, _h2, h3⟩ := readBody_ok_shape _ _ _ _ hok
         rw [h1]
         exact h3)

/-- C5: a decoded response has body `none` exactly when its status is 204
or 304, and for status 204/304 the body phase succeeds immediately after
the header block with body `none`, regardless of any framing headers
present and without touching the remaining input. -/
theorem claim_C5_status_body_absence :
    (∀ (input : List Nat) (r : Response), readResponse input = .ok r →
      ((r.status = 204 ∨ r.status = 304) ↔ r.body = none)) ∧
    (∀ (h : HttpHeader) (input : List Nat) (s : Nat), s = 204 ∨ s = 304 →
      readBody s h input = .ok ⟨s, h, none⟩) := by
  constructor
  · exact readResponse_ok_body
  · intro h input s hs
    unfold readBody
    rw [if_pos hs]

/-- C5 witness: the theorem applied to a concrete 204 response whose
headers include a Content-Length, and to the body phase at status 304. -/
theorem claim_C5_witness :
    (((204 : Nat) = 204 ∨ (204 : Nat) = 304) ↔
      (Response.mk 204 [("content-length", "5"), ("foo", "bar")] none).body = none) ∧
    readBody 304 [("content-length", "5")] (strBytes "abcde") =
      .ok ⟨304, [("content-length", "5")], none⟩ :=
  ⟨claim_C5_status_body_absence.1
      (strBytes "HTTP/1.1 204 No Content\r\ncontent-length: 5\r\nfoo: bar\r\n\r\n")
      ⟨204, [("content-length", "5"), ("foo", "bar")], none⟩ (by decide),
   claim_C5_status_body_absence.2 [("content-length", "5")] (strBytes "abcde") 304
      (Or.inr rfl)⟩

/-- C6 amended: header lookup returns the value stored under the exactly
identical key string (case-sensitive exact match), and the decoder
lower-cases keys before storage, which is the only source of
case-insensitive behaviour for response headers. -/
theorem claim_C6_amended_exact_lookup :
    (∀ (m : HttpHeader) (k v : String), (m.add k v).get k = some v) ∧
    parseHeaderLine "Content-Length: 9\r\n" = .ok ("content-length", "9") := by
  constructor
  · intro m k v
    exact mapGet_mapInsert_self k v m
  · decide

end UnixSocketHttp

namespace UnixSocketHttp

/-- UTF-8 encoding distributes over list append. -/
lemma encodeChars_append (l1 l2 : List Char) :
    encodeChars (l1 ++ l2) = encodeChars l1 ++ encodeChars l2 := by
  induction l1 with
  | nil => rfl
  | cons c cs ih => simp [encodeChars, ih]

/-- UTF-8 encoding distributes over string append. -/
lemma strBytes_append (a b : String) : strBytes (a ++ b) = strBytes a ++ strBytes b := by
  cases a with
  | mk da =>
    cases b with
    | mk db => exact encodeChars_append da db

/-- Joining a two-element vector inserts the separator once. -/
lemma joinSep_pair (sep a b : String) : joinSep sep [a, b] = a ++ sep ++ b := rfl

/-- C8: a request with no params, headers or body serializes to exactly
`"<METHOD> <path> HTTP/1.1\r\nHost: <host>\r\n\r\n"` where the host
defaults to `localhost`; the method enumeration's wire tokens are the
uppercase names and the default method is GET. -/
theorem claim_C8_request_wire_format :
    (∀ (url : String) (base : Option String) (m : HttpMethod),
      Request.build ⟨url, base, m, none, none, none⟩ =
        strBytes (m.toWire ++ " " ++ url ++ " HTTP/1.1" ++ "\r\n" ++ "Host: " ++
          (match base with | some b => b | none => "localhost") ++ "\r\n" ++ "\r\n")) ∧
    HttpMethod.default = HttpMethod.Get ∧
    HttpMethod.toWire .Get = "GET" ∧ HttpMethod.toWire .Post = "POST" ∧
    HttpMethod.toWire .Update = "UPDATE" ∧ HttpMethod.toWire .Delete = "DELETE" ∧
    HttpMethod.toWire .Patch = "PATCH" ∧
    (∀ url, (Request.new url).method = HttpMethod.Get) := by
  refine ⟨?_, rfl, rfl, rfl, rfl, rfl, rfl, fun url => rfl⟩
  intro url base m
  cases base
  · simp [Request.build, joinSep_pair, strBytes_append, List.append_assoc]
    decide
  · simp [Request.build, joinSep_pair, strBytes_append, List.append_assoc]

end UnixSocketHttp

namespace UnixSocketHttp

/-- The unsigned cast is the identity on non-negative values below 2^64. -/
lemma usizeOfI64_ofNat (n : Nat) (h : n < 2 ^ 64) : usizeOfI64 (n : Int) = n := by
  unfold usizeOfI64
  rw [Int.emod_eq_of_lt (by positivity) (by exact_mod_cast h)]
  exact Int.toNat_ofNat n

/-- C1 counterexample: for status 200 with `Transfer-Encoding: gzip` and no
Content-Length, decoding fails with `not found content-length`, NOT with
the claimed protocol error `missing transfer-encoding or content-length`. -/
theorem claim_C1_counterexample :
    readResponse (strBytes "HTTP/1.1 200 OK\r\ntransfer-encoding: gzip\r\n\r\n") =
      .err "not found content-length" ∧
    (Outcome.err "not found content-length" : Outcome Response) ≠
      .err "missing transfer-encoding or content-length" := by
  constructor <;> decide

/-- C1 amended: outside 204/304, if Transfer-Encoding equals `chunked`
(case-sensitively) the body is read as chunked; else if Content-Length is
present and parses as a non-negative 64-bit integer `n`, exactly `n` body
bytes are read; otherwise decoding fails — with the protocol error
`missing transfer-encoding or content-length` exactly when BOTH headers
are absent, with `not found content-length` when Transfer-Encoding is
present but not `chunked` and Content-Length is absent, and with the
integer-parse error text when Content-Length is present but malformed; an
empty or EOF-delimited body is never assumed. -/
theorem claim_C1_amended_framing :
    (∀ (s : Nat) (h : HttpHeader) (i : List Nat), ¬(s = 204 ∨ s = 304) →
      h.get "transfer-encoding" = none → h.get "content-length" = none →
      readBody s h i = .err "missing transfer-encoding or content-length") ∧
    (∀ (s : Nat) (h : HttpHeader) (i : List Nat) (t : String), ¬(s = 204 ∨ s = 304) →
      h.get "transfer-encoding" = some t → t ≠ "chunked" → h.get "content-length" = none →
      readBody s h i = .err "not found content-length") ∧
    (∀ (s : Nat) (h : HttpHeader) (i : List Nat) (c e : String), ¬(s = 204 ∨ s = 304) →
      h.get "transfer-encoding" ≠ some "chunked" → h.get "content-length" = some c →
      parseI64 c = .error e → readBody s h i = .err e) ∧
    (∀ (s : Nat) (h : HttpHeader) (c : String) (n : Nat) (bytes rest : List Nat),
      ¬(s = 204 ∨ s = 304) →
      h.get "transfer-encoding" ≠ some "chunked" → h.get "content-length" = some c →
      parseI64 c = .ok (n : Int) → n < 2 ^ 64 → bytes.length = n →
      readBody s h (bytes ++ rest) = .ok ⟨s, h, some bytes⟩) ∧
    (∀ (s : Nat) (h : HttpHeader) (i : List Nat), ¬(s = 204 ∨ s = 304) →
      h.get "transfer-encoding" = some "chunked" →
      readBody s h i =
        (match readChunked i with
          | .err e => .err e
          | .panic => .panic
          | .ok (body, _) => .ok ⟨s, h, some body⟩)) := by
  refine ⟨?_, ?_, ?_, ?_, ?_⟩
  · intro s h i hs h1 h2
    simp [readBody, hs, h1, h2]
  · intro s h i t hs htf ht hcl
    simp [readBody, hs, htf, ht, hcl]
  · intro s h i c e hs htf hcl hpe
    cases hft : h.get "transfer-encoding" with
    | none => simp [readBody, hs, hft, hcl, hpe]
    | some t =>
      have ht : t ≠ "chunked" := fun hh => htf (hft.trans (by rw [hh]))
      simp [readBody, hs, hft, ht, hcl, hpe]
  · intro s h c n bytes rest hs htf hcl hpn hn hlen
    have hexact : readExact (usizeOfI64 (n : Int)) (bytes ++ rest) = some (bytes, rest) := by
      rw [usizeOfI64_ofNat n hn]
      unfold readExact
      rw [if_pos (by simp [hlen])]
      rw [List.take_left' hlen, List.drop_left' hlen]
    cases hft : h.get "transfer-encoding" with
    | none => simp [readBody, hs, hft, hcl, hpn, hexact]
    | some t =>
      have ht : t ≠ "chunked" := fun hh => htf (hft.trans (by rw [hh]))
      simp [readBody, hs, hft, ht, hcl, hpn, hexact]
  · intro s h i hs htf
    simp [readBody, hs, htf]

/-- C1 witness: the amended framing theorem applied at concrete header maps
covering each classification branch. -/
theorem claim_C1_witness :
    readBody 200 [] [] = .err "missing transfer-encoding or content-length" ∧
    readBody 200 [("transfer-encoding", "gzip")] [] = .err "not found content-length" ∧
    readBody 200 [("content-length", "abc")] [] = .err "invalid digit found in string" ∧
    readBody 200 [("content-length", "4")] (strBytes "test" ++ strBytes "rest") =
      .ok ⟨200, [("content-length", "4")], some (strBytes "test")⟩ ∧
    readBody 200 [("transfer-encoding", "chunked")] (strBytes "0\r\n\r\n") =
      .ok ⟨200, [("transfer-encoding", "chunked")], some []⟩ :=
  ⟨claim_C1_amended_framing.1 200 [] [] (by decide) (by decide) (by decide),
   claim_C1_amended_framing.2.1 200 [("transfer-encoding", "gzip")] [] "gzip"
     (by decide) (by decide) (by decide) (by decide),
   claim_C1_amended_framing.2.2.1 200 [("content-length", "abc")] [] "abc"
     "invalid digit found in string" (by decide) (by decide) (by decide) rfl,
   claim_C1_amended_framing.2.2.2.1 200 [("content-length", "4")] "4" 4
     (strBytes "test") (strBytes "rest") (by decide) (by decide) (by decide) rfl
     (by decide) (by decide),
   (claim_C1_amended_framing.2.2.2.2 200 [("transfer-encoding", "chunked")]
     (strBytes "0\r\n\r\n") (by decide) (by decide)).trans (by decide)⟩

end UnixSocketHttp

namespace UnixSocketHttp

/-- Characters with equal codepoints are equal. -/
lemma char_eq_of_toNat_eq {a b : Char} (h : a.toNat = b.toNat) : a = b := by
  have h2 := congrArg Char.ofNat h
  rwa [Char.ofNat_toNat, Char.ofNat_toNat] at h2

/-- The codepoint-lexicographic order is asymmetric. -/
lemma ltCharList_asymm : ∀ {l1 l2 : List Char},
    ltCharList l1 l2 = true → ltCharList l2 l1 = false := by
  intro l1
  induction l1 with
  | nil =>
    intro l2 h
    cases l2 with
    | nil => simp [ltCharList] at h
    | cons b bs => simp [ltCharList]
  | cons a as ih =>
    intro l2 h
    cases l2 with
    | nil => simp [ltCharList] at h
    | cons b bs =>
      simp only [ltCharList] at h ⊢
      by_cases h1 : a.toNat < b.toNat
      · have h2 : ¬ b.toNat < a.toNat := by omega
        simp [h1, h2]
      · by_cases h2 : b.toNat < a.toNat
        · simp [h1, h2] at h
        · simp [h1, h2] at h ⊢
          exact ih h

/-- The codepoint-lexicographic order is transitive. -/
lemma ltCharList_trans : ∀ {l1 l2 l3 : List Char}, ltCharList l1 l2 = true →
    ltCharList l2 l3 = true → ltCharList l1 l3 = true := by
  intro l1
  induction l1 with
  | nil =>
    intro l2 l3 h12 h23
    cases l3 with
    | nil =>
      cases l2 with
      | nil => simp [ltCharList] at h12
      | cons b bs => simp [ltCharList] at h23
    | cons c cs => simp [ltCharList]
  | cons a as ih =>
    intro l2 l3 h12 h23
    cases l2 with
    | nil => simp [ltCharList] at h12
    | cons b bs =>
      cases l3 with
      | nil => simp [ltCharList] at h23
      | cons c cs =>
        simp only [ltCharList] at h12 h23 ⊢
        by_cases hab : a.toNat < b.toNat <;> by_cases hbc : b.toNat < c.toNat
        · simp [show a.toNat < c.toNat by omega]
        · by_cases hcb : c.toNat < b.toNat
          · simp [hbc, hcb] at h23
          · simp [show a.toNat < c.toNat by omega]
        · by_cases hba : b.toNat < a.toNat
          · simp [hab, hba] at h12
          · simp [show a.toNat < c.toNat by omega]
        · by_cases hba : b.toNat < a.toNat
          · simp [hab, hba] at h12
          · by_cases hcb : c.toNat < b.toNat
            · simp [hbc, hcb] at h23
            · have hac : ¬ a.toNat < c.toNat := by omega
              have hca : ¬ c.toNat < a.toNat := by omega
              simp [hab, hba] at h12
              simp [hbc, hcb] at h23
              simp [hac, hca]
              exact ih h12 h23

/-- Two lists unrelated in either direction of the codepoint order are
equal. -/
lemma ltCharList_eq : ∀ {l1 l2 : List Char}, ltCharList l1 l2 = false →
    ltCharList l2 l1 = false → l1 = l2 := by
  intro l1
  induction l1 with
  | nil =>
    intro l2 h12 _h21
    cases l2 with
    | nil => rfl
    | cons b bs => simp [ltCharList] at h12
  | cons a as ih =>
    intro l2 h12 h21
    cases l2 with
    | nil => simp [ltCharList] at h21
    | cons b bs =>
      simp only [ltCharList] at h12 h21
      by_cases hab : a.toNat < b.toNat
      · simp [hab] at h12
      · by_cases hba : b.toNat < a.toNat
        · simp [hba] at h21
        · have hEq : a = b := char_eq_of_toNat_eq (by omega)
          simp [hab, hba] at h12 h21
          rw [hEq, ih h12 h21]

/-- Asymmetry for the string order. -/
lemma strLt_asymm {a b : String} (h : strLt a b = true) : strLt b a = false :=
  ltCharList_asymm h

/-- Transitivity for the string order. -/
lemma strLt_trans {a b c : String} (h1 : strLt a b = true) (h2 : strLt b c = true) :
    strLt a c = true :=
  ltCharList_trans h1 h2

/-- Totality for the string order. -/
lemma strLt_total {a b : String} (h1 : strLt a b = false) (h2 : strLt b a = false) :
    a = b := by
  cases a with
  | mk da =>
    cases b with
    | mk db => exact congrArg String.mk (ltCharList_eq h1 h2)

/-- Strictly ordered strings are distinct. -/
lemma strLt_ne {a b : String} (h : strLt a b = true) : a ≠ b := by
  intro he
  subst he
  simp [strLt_irrefl] at h

/-- Trichotomy for the string order. -/
lemma strLt_cases (a b : String) : strLt a b = true ∨ a = b ∨ strLt b a = true := by
  by_cases h1 : strLt a b = true
  · exact Or.inl h1
  · by_cases h2 : strLt b a = true
    · exact Or.inr (Or.inr h2)
    · exact Or.inr (Or.inl (strLt_total (by simpa using h1) (by simpa using h2)))

/-- Inserting two bindings with distinct keys commutes. -/
lemma mapInsert_comm {k1 k2 : String} (v1 v2 : String) (hne : k1 ≠ k2) :
    ∀ m, mapInsert k1 v1 (mapInsert k2 v2 m) = mapInsert k2 v2 (mapInsert k1 v1 m) := by
  have h12 : strLt k1 k2 = true ∨ strLt k2 k1 = true := by
    rcases strLt_cases k1 k2 with h | h | h
    · exact Or.inl h
    · exact absurd h hne
    · exact Or.inr h
  intro m
  induction m with
  | nil =>
    rcases h12 with h | h
    · simp [mapInsert, h, strLt_asymm h, hne, Ne.symm hne]
    · simp [mapInsert, h, strLt_asymm h, hne, Ne.symm hne]
  | cons kv rest ih =>
    obtain ⟨k0, v0⟩ := kv
    rcases strLt_cases k1 k0 with ha | ha | ha <;> rcases strLt_cases k2 k0 with hb | hb | hb
    · rcases h12 with h | h
      · simp [mapInsert, ha, hb, h, strLt_asymm h, hne, Ne.symm hne]
      · simp [mapInsert, ha, hb, h, strLt_asymm h, hne, Ne.symm hne]
    · subst hb
      simp [mapInsert, ha, strLt_asymm ha, strLt_irrefl, hne, Ne.symm hne]
    · simp [mapInsert, ha, strLt_asymm hb, Ne.symm (strLt_ne hb),
        strLt_asymm (strLt_trans ha hb), hne, Ne.symm hne]
    · subst ha
      simp [mapInsert, hb, strLt_asymm hb, strLt_irrefl, hne, Ne.symm hne]
    · exact absurd (ha.trans hb.symm) hne
    · subst ha
      simp [mapInsert, strLt_asymm hb, strLt_irrefl, hne, Ne.symm hne]
    · simp [mapInsert, hb, strLt_asymm ha, Ne.symm (strLt_ne ha),
        strLt_asymm (strLt_trans hb ha), hne, Ne.symm hne]
    · subst hb
      simp [mapInsert, strLt_asymm ha, strLt_irrefl, hne, Ne.symm hne]
    · simp [mapInsert, strLt_asymm ha, strLt_asymm hb, Ne.symm (strLt_ne ha),
        Ne.symm (strLt_ne hb), ih]

/-- A member of a map after insertion is the inserted binding or an
original member. -/
lemma mapInsert_mem {k v : String} :
    ∀ {m : List (String × String)} {x : String × String},
      x ∈ mapInsert k v m → x = (k, v) ∨ x ∈ m := by
  intro m
  induction m with
  | nil =>
    intro x hx
    rw [mapInsert] at hx
    exact Or.inl (List.mem_singleton.mp hx)
  | cons kv rest ih =>
    obtain ⟨k0, v0⟩ := kv
    intro x hx
    by_cases h1 : strLt k k0 = true
    · rw [mapInsert, if_pos h1] at hx
      exact List.mem_cons.mp hx
    · by_cases h2 : k = k0
      · rw [mapInsert, if_neg h1, if_pos h2] at hx
        rcases List.mem_cons.mp hx with h | h
        · exact Or.inl h
        · exact Or.inr (List.mem_cons_of_mem _ h)
      · rw [mapInsert, if_neg h1, if_neg h2] at hx
        rcases List.mem_cons.mp hx with h | h
        · exact Or.inr (h ▸ List.mem_cons_self _ _)
        · rcases ih h with h3 | h3
          · exact Or.inl h3
          · exact Or.inr (List.mem_cons_of_mem _ h3)

/-- Insertion preserves strict sortedness of the keys. -/
lemma mapInsert_pairwise {k v : String} :
    ∀ {m : List (String × String)}, m.Pairwise (fun a b => strLt a.1 b.1 = true) →
      (mapInsert k v m).Pairwise (fun a b => strLt a.1 b.1 = true) := by
  intro m
  induction m with
  | nil =>
    intro _
    simp [mapInsert]
  | cons kv rest ih =>
    obtain ⟨k0, v0⟩ := kv
    intro hp
    rw [List.pairwise_cons] at hp
    obtain ⟨h0, hrest⟩ := hp
    by_cases h1 : strLt k k0 = true
    · rw [mapInsert, if_pos h1]
      refine List.Pairwise.cons ?_ (List.Pairwise.cons h0 hrest)
      intro b hb
      rcases List.mem_cons.mp hb with rfl | hb2
      · exact h1
      · exact strLt_trans h1 (h0 b hb2)
    · by_cases h2 : k = k0
      · rw [mapInsert, if_neg h1, if_pos h2]
        subst h2
        exact List.Pairwise.cons h0 hrest
      · rw [mapInsert, if_neg h1, if_neg h2]
        refine List.Pairwise.cons ?_ (ih hrest)
        intro b hb
        rcases mapInsert_mem hb with rfl | hb2
        · rcases strLt_cases k k0 with hh | hh | hh
          · exact absurd hh h1
          · exact absurd hh h2
          · exact hh
        · exact h0 b hb2

/-- Folding insertions over any sorted accumulator keeps keys sorted. -/
lemma foldl_mapInsert_pairwise :
    ∀ (l : List (String × String)) (acc : List (String × String)),
      acc.Pairwise (fun a b => strLt a.1 b.1 = true) →
      (l.foldl (fun m kv => mapInsert kv.1 kv.2 m) acc).Pairwise
        (fun a b => strLt a.1 b.1 = true) := by
  intro l
  induction l with
  | nil =>
    intro acc h
    simpa using h
  | cons kv t ih =>
    intro acc h
    exact ih _ (mapInsert_pairwise h)

/-- Building a params map from pairs with pairwise-distinct keys does not
depend on insertion order. -/
lemma fromPairs_perm {l1 l2 : List (String × String)}
    (hp : l1.Perm l2) (hnd : (l1.map Prod.fst).Nodup) :
    HttpParams.fromPairs l1 = HttpParams.fromPairs l2 := by
  unfold HttpParams.fromPairs
  refine hp.foldl_eq' ?_ []
  intro x hx y hy z
  by_cases hxy : x = y
  · subst hxy
    rfl
  · have hk : y.1 ≠ x.1 := by
      intro he
      exact hxy (List.inj_on_of_nodup_map hnd hx hy he.symm)
    exact mapInsert_comm y.2 x.2 hk z

/-- Appending one more pair to the build list inserts it last. -/
lemma fromPairs_append_single (l : List (String × String)) (k v : String) :
    HttpParams.fromPairs (l ++ [(k, v)]) = mapInsert k v (HttpParams.fromPairs l) := by
  unfold HttpParams.fromPairs
  rw [List.foldl_append]
  rfl

/-- C9: params maps built from the same pairs in different insertion orders
are equal (hence serialize to identical request bytes); a duplicate key
keeps only the last value written; the map's entries are strictly sorted by
key in the byte-lexicographic order; and a request with params appends
`?k1=v1&k2=v2...` to the path in that order. -/
theorem claim_C9_params_order :
    (∀ (l1 l2 : List (String × String)), l1.Perm l2 → (l1.map Prod.fst).Nodup →
      HttpParams.fromPairs l1 = HttpParams.fromPairs l2) ∧
    (∀ (l : List (String × String)) (k v : String),
      mapGet (HttpParams.fromPairs (l ++ [(k, v)])) k = some v) ∧
    (∀ l : List (String × String),
      (HttpParams.fromPairs l).Pairwise (fun a b => strLt a.1 b.1 = true)) ∧
    (∀ (url : String) (base : Option String) (m : HttpMethod) (ps : HttpParams),
      Request.build ⟨url, base, m, none, some ps, none⟩ =
        strBytes (m.toWire ++ " " ++ url ++ "?" ++ HttpParams.display ps ++ " HTTP/1.1" ++
          "\r\n" ++ "Host: " ++ (match base with | some b => b | none => "localhost") ++
          "\r\n" ++ "\r\n")) := by
  refine ⟨fun l1 l2 hp hnd => fromPairs_perm hp hnd, ?_, ?_, ?_⟩
  · intro l k v
    rw [fromPairs_append_single]
    exact mapGet_mapInsert_self k v _
  · intro l
    exact foldl_mapInsert_pairwise l [] (by simp)
  · intro url base m ps
    cases base
    · simp [Request.build, joinSep_pair, strBytes_append, List.append_assoc]
      decide
    · simp [Request.build, joinSep_pair, strBytes_append, List.append_assoc]

/-- C9 witness: the permutation-invariance conjunct applied to the two
insertion orders of the pairs used in the repository's own test. -/
theorem claim_C9_witness :
    HttpParams.fromPairs [("name", "nvim"), ("image", "ubuntu")] =
      HttpParams.fromPairs [("image", "ubuntu"), ("name", "nvim")] :=
  claim_C9_params_order.1 [("name", "nvim"), ("image", "ubuntu")]
    [("image", "ubuntu"), ("name", "nvim")] (by decide) (by decide)

end UnixSocketHttp
